import Mathlib

/-!
# Formal model of the Echo State Network in `reservoir.py`

This file gives a shallow embedding, over the exact reals, of the core of the
`Reservoir` class (random-structure initializer, leaky state-update engine,
ridge-regression readout fitter, and the training/testing driver), together
with theorems settling the specification claims about it.

Machine floats are modelled by `ℝ`; numpy vectors of length `n` by
`Fin n → ℝ`; numpy matrices by Mathlib's `Matrix`; Python exceptions
(`IndexError` on out-of-range indexing, `ValueError` on shape mismatches in
`@`) by `Except String`.
-/

noncomputable section

namespace ReservoirESN

/-- Default spectral-radius target, `self.radius = 1.25` (source line 74). -/
def defaultRadius : ℝ := 1.25

/-- Default leak rate, `self.leak = 0.5` (source line 75). -/
def defaultLeak : ℝ := 0.5

/-- Default warmup length, `self.warmup = 100` (source line 76). -/
def defaultWarmup : ℕ := 100

/-- The rescaling of the recurrent matrix on source line 88:
`self.weight *= self.radius / np.max(np.abs(np.linalg.eigvals(self.weight)))`.
`lam` stands for the computed largest eigenvalue magnitude.  Note the Python
code performs the float division unconditionally: a zero `lam` produces `inf`
(with only a runtime warning), never an exception, so this model is a total
function. -/
def scaledW {n : ℕ} (radius lam : ℝ) (W : Matrix (Fin n) (Fin n) ℝ) :
    Matrix (Fin n) (Fin n) ℝ :=
  (radius / lam) • W

/-- `μ` is an eigenvalue of the complex square matrix `M`
(what `np.linalg.eigvals` returns are exactly these numbers). -/
def IsEigenvalue {n : ℕ} (M : Matrix (Fin n) (Fin n) ℂ) (μ : ℂ) : Prop :=
  ∃ v : Fin n → ℂ, v ≠ 0 ∧ M.mulVec v = μ • v

/-- `m` is the maximum of the absolute values of the eigenvalues of `M`:
the value `np.max(np.abs(np.linalg.eigvals(M)))` computed on source line 88. -/
def IsMaxAbsEigenvalue {n : ℕ} (M : Matrix (Fin n) (Fin n) ℂ) (m : ℝ) : Prop :=
  (∃ μ, IsEigenvalue M μ ∧ Complex.abs μ = m) ∧
    ∀ μ, IsEigenvalue M μ → Complex.abs μ ≤ m

variable {dx dy : ℕ}

/-- `Reservoir.forward_input` (source line 116): `W_in @ u`. -/
def forward_input (Win : Matrix (Fin dx) (Fin dy) ℝ) (u : Fin dy → ℝ) :
    Fin dx → ℝ :=
  Win.mulVec u

/-- `Reservoir.forward_internal` (source line 123): `W @ x`. -/
def forward_internal (W : Matrix (Fin dx) (Fin dx) ℝ) (x : Fin dx → ℝ) :
    Fin dx → ℝ :=
  W.mulVec x

/-- `Reservoir.forward` (source line 135): `np.tanh(Win @ u + W @ x)`,
elementwise `tanh` of the pre-activation. -/
def forward (W : Matrix (Fin dx) (Fin dx) ℝ) (Win : Matrix (Fin dx) (Fin dy) ℝ)
    (x : Fin dx → ℝ) (u : Fin dy → ℝ) : Fin dx → ℝ :=
  fun j => Real.tanh ((forward_input Win u + forward_internal W x) j)

/-- The leaky-integration assignment on source lines 205 and 221:
`internal = (1 - leak) * internal + leak * forward()`. -/
def leakyUpdate (W : Matrix (Fin dx) (Fin dx) ℝ)
    (Win : Matrix (Fin dx) (Fin dy) ℝ) (leak : ℝ) (x : Fin dx → ℝ)
    (u : Fin dy → ℝ) : Fin dx → ℝ :=
  (1 - leak) • x + leak • forward W Win x u

/-- One full state update of the driver: the leaky integration followed by the
in-place bias write `internal[0] = 1` (source lines 205-206 and 221-222). -/
def biasedStep [NeZero dx] (W : Matrix (Fin dx) (Fin dx) ℝ)
    (Win : Matrix (Fin dx) (Fin dy) ℝ) (leak : ℝ) (x : Fin dx → ℝ)
    (u : Fin dy → ℝ) : Fin dx → ℝ :=
  Function.update (leakyUpdate W Win leak x u) 0 1

/-- Loop-carried data of the training loop (source lines 204-212): the
internal state `x`, the current input `u`, and the two trace buffers. -/
structure TrainAcc (dx dy : ℕ) where
  x : Fin dx → ℝ
  u : Fin dy → ℝ
  trace : List (Fin dx → ℝ)
  targets : List (Fin dy → ℝ)

/-- The `(internal, input)` pair after `k` executions of the teacher-forced
loop body, starting from `(x₀, u₀)`: at each step the state advances by
`biasedStep` and the next input is teacher-forced to `train[k+1]`
(source line 212).  Out-of-range reads return the junk value `0`; within the
driver's contract (`train` of length `n1`, at most `n1 - 1` steps) the
defaults are never hit. -/
def stateEvol [NeZero dx] (W : Matrix (Fin dx) (Fin dx) ℝ)
    (Win : Matrix (Fin dx) (Fin dy) ℝ) (leak : ℝ)
    (train : List (Fin dy → ℝ)) (x₀ : Fin dx → ℝ) (u₀ : Fin dy → ℝ) :
    ℕ → (Fin dx → ℝ) × (Fin dy → ℝ)
  | 0 => (x₀, u₀)
  | k + 1 =>
      let p := stateEvol W Win leak train x₀ u₀ k
      (biasedStep W Win leak p.1 p.2, train.getD (k + 1) (fun _ => 0))

/-- The training loop `for i in range(n1-1)` (source lines 204-212).
`i` is the Python loop index and `fuel` the number of iterations left.
Each iteration advances the state (lines 205-206), appends the fresh state and
the current teacher input to the buffers once `warmup ≤ i` (lines 207-209),
and teacher-forces the next input (line 212). -/
def trainLoop [NeZero dx] (W : Matrix (Fin dx) (Fin dx) ℝ)
    (Win : Matrix (Fin dx) (Fin dy) ℝ) (leak : ℝ) (warmup : ℕ)
    (train : List (Fin dy → ℝ)) : ℕ → ℕ → TrainAcc dx dy → TrainAcc dx dy
  | _, 0, s => s
  | i, fuel + 1, s =>
      trainLoop W Win leak warmup train (i + 1) fuel
        { x := biasedStep W Win leak s.x s.u
          u := train.getD (i + 1) (fun _ => 0)
          trace :=
            if warmup ≤ i then s.trace ++ [biasedStep W Win leak s.x s.u]
            else s.trace
          targets := if warmup ≤ i then s.targets ++ [s.u] else s.targets }

/-- The whole training phase of `training_testing` (source lines 200-212):
input initialised to `train[0]`, empty trace buffers, and `n1 - 1` loop
iterations starting at index `0`. -/
def runTraining [NeZero dx] (W : Matrix (Fin dx) (Fin dx) ℝ)
    (Win : Matrix (Fin dx) (Fin dy) ℝ) (leak : ℝ) (warmup : ℕ)
    (train : List (Fin dy → ℝ)) (n1 : ℕ) (x₀ : Fin dx → ℝ) : TrainAcc dx dy :=
  trainLoop W Win leak warmup train 0 (n1 - 1)
    { x := x₀, u := train.getD 0 (fun _ => 0), trace := [], targets := [] }

/-- Gram matrix `x @ x.T` of a recorded trace with time along columns
(source line 169): entry `(a, b)` is the sum over recorded samples `v` of
`v a * v b`. -/
def gram (xs : List (Fin dx → ℝ)) : Matrix (Fin dx) (Fin dx) ℝ :=
  Matrix.of fun a b => (xs.map fun v => v a * v b).sum

/-- Cross-covariance `y @ x.T` of the target trace against the state trace
with time along columns (source line 169): entry `(a, b)` is the sum over
aligned sample pairs `(t, v)` of `t a * v b`. -/
def crossCov (ys : List (Fin dy → ℝ)) (xs : List (Fin dx → ℝ)) :
    Matrix (Fin dy) (Fin dx) ℝ :=
  Matrix.of fun a b => ((ys.zip xs).map fun p => p.1 a * p.2 b).sum

/-- `Reservoir.update` (source lines 167-172): after transposing the stacked
traces, `new_W_out = (y @ x.T) @ inv(x @ x.T + 1e-8 * eye(dim_N_x))`.
numpy's `@` raises `ValueError` when the two traces are empty (a 0-d scalar
cannot be matrix-multiplied) or of unequal sample counts (inner dimensions
disagree); otherwise the products are exactly the entrywise sums `gram` and
`crossCov` above. -/
def update (xs : List (Fin dx → ℝ)) (ys : List (Fin dy → ℝ)) :
    Except String (Matrix (Fin dy) (Fin dx) ℝ) :=
  if xs.length ≠ 0 ∧ ys.length = xs.length then
    Except.ok
      (crossCov ys xs *
        (gram xs + (1e-8 : ℝ) • (1 : Matrix (Fin dx) (Fin dx) ℝ))⁻¹)
  else Except.error "ValueError: matmul shapes not aligned"

/-- Loop-carried data of the test loop: internal state `x` and current
input `u` (which, after any step, holds the network's own output). -/
structure TestState (dx dy : ℕ) where
  x : Fin dx → ℝ
  u : Fin dy → ℝ

/-- One iteration of the autonomous test loop (source lines 221-228): leaky
update with bias write, output `y = W_out @ internal` computed from the
post-bias state, and the closed-loop feedback `input = output`. -/
def testStep [NeZero dx] (W : Matrix (Fin dx) (Fin dx) ℝ)
    (Win : Matrix (Fin dx) (Fin dy) ℝ) (Wout : Matrix (Fin dy) (Fin dx) ℝ)
    (leak : ℝ) (s : TestState dx dy) : TestState dx dy :=
  let xn := biasedStep W Win leak s.x s.u
  { x := xn, u := Wout.mulVec xn }

/-- The test loop `for i in range(n2-n1)` (source lines 220-228), returning
(`signal`, `result`, final state): `signal` collects the ground truth
`test[i][0]` and `result` the predictions `output[0]`, in iteration order. -/
def testLoop [NeZero dx] [NeZero dy] (W : Matrix (Fin dx) (Fin dx) ℝ)
    (Win : Matrix (Fin dx) (Fin dy) ℝ) (Wout : Matrix (Fin dy) (Fin dx) ℝ)
    (leak : ℝ) (test : List (Fin dy → ℝ)) :
    ℕ → ℕ → TestState dx dy → List ℝ × List ℝ × TestState dx dy
  | _, 0, s => ([], [], s)
  | i, fuel + 1, s =>
      let sn := testStep W Win Wout leak s
      let rest := testLoop W Win Wout leak test (i + 1) fuel sn
      ((test.getD i (fun _ => 0)) 0 :: rest.1, sn.u 0 :: rest.2.1, rest.2.2)

/-- The per-instance state of a `Reservoir` object that the driver reads and
writes: the three weight matrices (source lines 83-88), the hyperparameters,
and the persistent internal activation vector (source line 93).  The
construction-time invariant `dim_N_y = dim_N_u` (source line 71) is baked in
by using `dy` for both the input and the output dimension. -/
structure ReservoirInst (dx dy : ℕ) where
  weight_in : Matrix (Fin dx) (Fin dy) ℝ
  weight : Matrix (Fin dx) (Fin dx) ℝ
  weight_out : Matrix (Fin dy) (Fin dx) ℝ
  leak : ℝ
  warmup : ℕ
  internal : Fin dx → ℝ

/-- `Reservoir.training_testing` (source lines 174-230).  The external data
series is split as `train = data[:n1]`, `test = data[n1:n2]` (line 199).
Python raises `IndexError` at `train[0]` (line 200) or `test[0]` (line 219)
exactly when the respective slice is empty, and `update` raises on empty or
misaligned traces (line 215); each raise is modelled as `Except.error`,
paired with the instance state as mutated up to that point (in Python the
exception propagates but `self` keeps all mutations made before it). -/
def training_testing [NeZero dx] [NeZero dy] (inst : ReservoirInst dx dy)
    (data : List (Fin dy → ℝ)) (n1 n2 : ℕ) :
    Except String (List ℝ × List ℝ) × ReservoirInst dx dy :=
  let train := data.take n1
  let test := (data.drop n1).take (n2 - n1)
  if train.isEmpty then
    (Except.error "IndexError: list index out of range", inst)
  else
    let ts := runTraining inst.weight inst.weight_in inst.leak inst.warmup
      train n1 inst.internal
    match update ts.trace ts.targets with
    | Except.error e => (Except.error e, { inst with internal := ts.x })
    | Except.ok newWout =>
        if test.isEmpty then
          (Except.error "IndexError: list index out of range",
            { inst with internal := ts.x, weight_out := newWout })
        else
          let res := testLoop inst.weight inst.weight_in newWout inst.leak
            test 0 (n2 - n1) { x := ts.x, u := test.getD 0 (fun _ => 0) }
          (Except.ok (res.1, res.2.1),
            { inst with internal := res.2.2.x, weight_out := newWout })

/-- The readout matrix produced by a successful fit inside
`training_testing inst data n1 _` (the `Except.ok` payload of `update` on the
recorded traces). -/
def fitW [NeZero dx] (inst : ReservoirInst dx dy) (data : List (Fin dy → ℝ))
    (n1 : ℕ) : Matrix (Fin dy) (Fin dx) ℝ :=
  let ts := runTraining inst.weight inst.weight_in inst.leak inst.warmup
    (data.take n1) n1 inst.internal
  crossCov ts.targets ts.trace *
    (gram ts.trace + (1e-8 : ℝ) • (1 : Matrix (Fin dx) (Fin dx) ℝ))⁻¹

/-- `true` iff an `Except` value is a success. -/
def isOkE {ε α : Type} : Except ε α → Bool
  | Except.ok _ => true
  | Except.error _ => false

/-- The trace of column vectors of a matrix whose columns are time samples:
sample `t` of the list is column `t` of the matrix. -/
def colsList {n T : ℕ} (M : Matrix (Fin n) (Fin T) ℝ) : List (Fin n → ℝ) :=
  (List.finRange T).map fun t r => M r t

/-- A concrete degenerate (nilpotent, hence all-eigenvalues-zero) recurrent
matrix, used to exercise the rescaling of source line 88 at zero spectral
radius. -/
def degW : Matrix (Fin 2) (Fin 2) ℝ :=
  Matrix.of fun i j => if i = 0 ∧ j = 1 then 1 else 0

/-- A concrete 1×1 recurrent matrix with unique eigenvalue 2, used to witness
the spectral-radius rescaling. -/
def W1 : Matrix (Fin 1) (Fin 1) ℝ :=
  Matrix.of fun _ _ => 2

/-- A concrete tiny reservoir instance (`dim_x = dim_y = dim_u = 1`, zero
weights, leak 1/2, no warmup) used to exercise the driver on small runs. -/
def inst0 : ReservoirInst 1 1 where
  weight_in := 0
  weight := 0
  weight_out := 0
  leak := 1 / 2
  warmup := 0
  internal := fun _ => 0

/-- A concrete constant data series of length 3 for driver runs. -/
def data0 : List (Fin 1 → ℝ) :=
  List.replicate 3 fun _ => 0.5

/-! ## Helper lemmas -/

/-- The bias write pins component 0 of every driver state update to 1. -/
theorem biasedStep_apply_zero [NeZero dx] (W : Matrix (Fin dx) (Fin dx) ℝ)
    (Win : Matrix (Fin dx) (Fin dy) ℝ) (leak : ℝ) (x : Fin dx → ℝ)
    (u : Fin dy → ℝ) : biasedStep W Win leak x u 0 = 1 := by
  simp [biasedStep]

/-- Characterization of the training loop's two trace buffers: starting at
loop index `i` from a state that agrees with the `i`-th point of the
reference evolution `stateEvol`, the loop appends, for each index
`k ∈ [i, i+fuel)` with `warmup ≤ k`, the post-step internal state
`(stateEvol (k+1)).1` and the teacher input `(stateEvol k).2`. -/
theorem trainLoop_traces [NeZero dx] (W : Matrix (Fin dx) (Fin dx) ℝ)
    (Win : Matrix (Fin dx) (Fin dy) ℝ) (leak : ℝ) (warmup : ℕ)
    (train : List (Fin dy → ℝ)) (x₀ : Fin dx → ℝ) (u₀ : Fin dy → ℝ) :
    ∀ (fuel i : ℕ) (s : TrainAcc dx dy),
      s.x = (stateEvol W Win leak train x₀ u₀ i).1 →
      s.u = (stateEvol W Win leak train x₀ u₀ i).2 →
      (trainLoop W Win leak warmup train i fuel s).trace
          = s.trace ++ (((List.range' i fuel).filter fun k => warmup ≤ k).map
              fun k => (stateEvol W Win leak train x₀ u₀ (k + 1)).1) ∧
        (trainLoop W Win leak warmup train i fuel s).targets
          = s.targets ++ (((List.range' i fuel).filter fun k => warmup ≤ k).map
              fun k => (stateEvol W Win leak train x₀ u₀ k).2) := by
  intro fuel
  induction fuel with
  | zero => intro i s hx hu; simp [trainLoop]
  | succ fuel ih =>
      intro i s hx hu
      have hx' : biasedStep W Win leak s.x s.u
          = (stateEvol W Win leak train x₀ u₀ (i + 1)).1 := by
        rw [hx, hu]; simp [stateEvol]
      have hu' : train.getD (i + 1) (fun _ => 0)
          = (stateEvol W Win leak train x₀ u₀ (i + 1)).2 := by
        simp [stateEvol]
      have key := ih (i + 1)
        { x := biasedStep W Win leak s.x s.u
          u := train.getD (i + 1) (fun _ => 0)
          trace :=
            if warmup ≤ i then s.trace ++ [biasedStep W Win leak s.x s.u]
            else s.trace
          targets := if warmup ≤ i then s.targets ++ [s.u] else s.targets }
        hx' hu'
      obtain ⟨k1, k2⟩ := key
      refine ⟨?_, ?_⟩
      · simp only [trainLoop, k1, List.range'_succ, List.filter_cons,
          decide_eq_true_eq]
        by_cases hwi : warmup ≤ i
        · simp [hwi, hx', List.append_assoc]
        · simp [hwi]
      · simp only [trainLoop, k2, List.range'_succ, List.filter_cons,
          decide_eq_true_eq]
        by_cases hwi : warmup ≤ i
        · simp [hwi, hu, List.append_assoc]
        · simp [hwi]

/-- Counting the recorded indices: among `[i, i+fuel)` exactly
`fuel - min fuel (w - i)` indices are `≥ w`. -/
theorem length_filter_range' (w : ℕ) :
    ∀ fuel i : ℕ,
      ((List.range' i fuel).filter fun k => w ≤ k).length
        = fuel - min fuel (w - i) := by
  intro fuel
  induction fuel with
  | zero => intro i; simp
  | succ fuel ih =>
      intro i
      rw [List.range'_succ, List.filter_cons]
      by_cases hwi : w ≤ i
      · have := ih (i + 1)
        simp only [decide_eq_true_eq, hwi, if_true, List.length_cons, this]
        omega
      · have := ih (i + 1)
        simp only [decide_eq_true_eq, hwi, if_false, this]
        omega

/-- The state trace recorded by the training phase, as a list of snapshots of
the reference evolution, one per loop index `k ∈ [0, n1-1)` with
`warmup ≤ k`. -/
theorem runTraining_trace [NeZero dx] (W : Matrix (Fin dx) (Fin dx) ℝ)
    (Win : Matrix (Fin dx) (Fin dy) ℝ) (leak : ℝ) (warmup : ℕ)
    (train : List (Fin dy → ℝ)) (n1 : ℕ) (x₀ : Fin dx → ℝ) :
    (runTraining W Win leak warmup train n1 x₀).trace
      = ((List.range (n1 - 1)).filter fun k => warmup ≤ k).map
          fun k =>
            (stateEvol W Win leak train x₀ (train.getD 0 fun _ => 0)
              (k + 1)).1 := by
  have h := trainLoop_traces W Win leak warmup train x₀
    (train.getD 0 fun _ => 0) (n1 - 1) 0
    { x := x₀, u := train.getD 0 fun _ => 0, trace := [], targets := [] }
    (by simp [stateEvol]) (by simp [stateEvol])
  rw [runTraining, h.1, List.range_eq_range']
  simp

/-- The target trace recorded by the training phase: the teacher inputs at
the recorded loop indices. -/
theorem runTraining_targets [NeZero dx] (W : Matrix (Fin dx) (Fin dx) ℝ)
    (Win : Matrix (Fin dx) (Fin dy) ℝ) (leak : ℝ) (warmup : ℕ)
    (train : List (Fin dy → ℝ)) (n1 : ℕ) (x₀ : Fin dx → ℝ) :
    (runTraining W Win leak warmup train n1 x₀).targets
      = ((List.range (n1 - 1)).filter fun k => warmup ≤ k).map
          fun k =>
            (stateEvol W Win leak train x₀ (train.getD 0 fun _ => 0) k).2 := by
  have h := trainLoop_traces W Win leak warmup train x₀
    (train.getD 0 fun _ => 0) (n1 - 1) 0
    { x := x₀, u := train.getD 0 fun _ => 0, trace := [], targets := [] }
    (by simp [stateEvol]) (by simp [stateEvol])
  rw [runTraining, h.2, List.range_eq_range']
  simp

/-- Number of recorded states of a training run. -/
theorem runTraining_trace_length [NeZero dx] (W : Matrix (Fin dx) (Fin dx) ℝ)
    (Win : Matrix (Fin dx) (Fin dy) ℝ) (leak : ℝ) (warmup : ℕ)
    (train : List (Fin dy → ℝ)) (n1 : ℕ) (x₀ : Fin dx → ℝ) :
    (runTraining W Win leak warmup train n1 x₀).trace.length
      = (n1 - 1) - min (n1 - 1) warmup := by
  rw [runTraining_trace, List.length_map, List.range_eq_range',
    length_filter_range']
  simp

/-- The two trace buffers of a training run always have the same length. -/
theorem runTraining_targets_length [NeZero dx]
    (W : Matrix (Fin dx) (Fin dx) ℝ) (Win : Matrix (Fin dx) (Fin dy) ℝ)
    (leak : ℝ) (warmup : ℕ) (train : List (Fin dy → ℝ)) (n1 : ℕ)
    (x₀ : Fin dx → ℝ) :
    (runTraining W Win leak warmup train n1 x₀).targets.length
      = (runTraining W Win leak warmup train n1 x₀).trace.length := by
  rw [runTraining_trace, runTraining_targets, List.length_map, List.length_map]

/-- The true-signal list produced by the test loop: the ground-truth values
`test[i][0]`, `test[i+1][0]`, ... for `fuel` consecutive indices. -/
theorem testLoop_signal [NeZero dx] [NeZero dy] (W : Matrix (Fin dx) (Fin dx) ℝ)
    (Win : Matrix (Fin dx) (Fin dy) ℝ) (Wout : Matrix (Fin dy) (Fin dx) ℝ)
    (leak : ℝ) (test : List (Fin dy → ℝ)) :
    ∀ (fuel i : ℕ) (s : TestState dx dy),
      (testLoop W Win Wout leak test i fuel s).1
        = (List.range fuel).map fun k => (test.getD (i + k) fun _ => 0) 0 := by
  intro fuel
  induction fuel with
  | zero => intro i s; simp [testLoop]
  | succ fuel ih =>
      intro i s
      rw [List.range_succ_eq_map]
      simp only [testLoop, ih (i + 1), List.map_cons, Nat.add_zero,
        List.map_map]
      congr 1
      refine List.map_congr_left fun k _ => ?_
      have h : i + 1 + k = i + (k + 1) := by omega
      simp only [Function.comp_apply, h, Nat.succ_eq_add_one]

/-- The prediction list produced by the test loop: entry `k` is the first
component of the output after `k + 1` iterations of the closed-loop step from
the loop's entry state. -/
theorem testLoop_result [NeZero dx] [NeZero dy] (W : Matrix (Fin dx) (Fin dx) ℝ)
    (Win : Matrix (Fin dx) (Fin dy) ℝ) (Wout : Matrix (Fin dy) (Fin dx) ℝ)
    (leak : ℝ) (test : List (Fin dy → ℝ)) :
    ∀ (fuel i : ℕ) (s : TestState dx dy),
      (testLoop W Win Wout leak test i fuel s).2.1
        = (List.range fuel).map
            fun k => ((testStep W Win Wout leak)^[k + 1] s).u 0 := by
  intro fuel
  induction fuel with
  | zero => intro i s; simp [testLoop]
  | succ fuel ih =>
      intro i s
      rw [List.range_succ_eq_map]
      simp only [testLoop, ih (i + 1), List.map_cons, List.map_map]
      congr 1

/-- Every recorded state has first component 1 (the bias write precedes the
append to `reservoir_state`). -/
theorem runTraining_trace_bias [NeZero dx] (W : Matrix (Fin dx) (Fin dx) ℝ)
    (Win : Matrix (Fin dx) (Fin dy) ℝ) (leak : ℝ) (warmup n1 : ℕ)
    (train : List (Fin dy → ℝ)) (x₀ : Fin dx → ℝ) :
    (runTraining W Win leak warmup train n1 x₀).trace.map (fun v => v 0)
      = List.replicate (runTraining W Win leak warmup train n1 x₀).trace.length
          (1 : ℝ) := by
  rw [List.eq_replicate_iff]
  refine ⟨by rw [List.length_map], ?_⟩
  intro b hb
  rw [runTraining_trace] at hb
  simp only [List.map_map, List.mem_map, List.mem_filter, Function.comp_apply]
    at hb
  obtain ⟨k, _, rfl⟩ := hb
  simp [stateEvol, biasedStep_apply_zero]

/-! ## Claim theorems -/

/-- **C1, counterexample.** In the spec's own scenario (`dim_x = 10`,
`dim_y = dim_u = 1`, `leak = 1`, `warmup = 2`, `n1 = 10`, constant training
input 0.5) the recorded state trace has 7 rows, not the 8 the claim asserts:
the loop `for i in range(n1-1)` performs only `n1 - 1` steps, recording steps
`warmup .. n1-2`. -/
theorem trace_count_scenario_counterexample :
    (runTraining (0 : Matrix (Fin 10) (Fin 10) ℝ)
        (0 : Matrix (Fin 10) (Fin 1) ℝ) 1 2
        (List.replicate 10 fun _ => (0.5 : ℝ)) 10 fun _ => 0).trace.length = 7
      ∧ (runTraining (0 : Matrix (Fin 10) (Fin 10) ℝ)
          (0 : Matrix (Fin 10) (Fin 1) ℝ) 1 2
          (List.replicate 10 fun _ => (0.5 : ℝ)) 10 fun _ => 0).trace.length
        ≠ 8 := by
  rw [runTraining_trace_length]
  norm_num

/-- **C1 (amended).** For every training run with `warmup < n1`, the recorded
state trace contains exactly `n1 - 1 - warmup` entries — one for each loop
step `warmup .. n1-2` — and every recorded row has first component exactly 1
(rows have length `dim_x` by the type `Fin dx → ℝ`).  In particular with
`warmup = 2`, `n1 = 10` there are 7 recorded rows. -/
theorem trace_count_after_training [NeZero dx] (W : Matrix (Fin dx) (Fin dx) ℝ)
    (Win : Matrix (Fin dx) (Fin dy) ℝ) (leak : ℝ) (warmup n1 : ℕ)
    (train : List (Fin dy → ℝ)) (x₀ : Fin dx → ℝ) (h : warmup < n1) :
    (runTraining W Win leak warmup train n1 x₀).trace.length
        = n1 - 1 - warmup
      ∧ (runTraining W Win leak warmup train n1 x₀).trace.map (fun v => v 0)
        = List.replicate (n1 - 1 - warmup) (1 : ℝ) := by
  have hlen : (runTraining W Win leak warmup train n1 x₀).trace.length
      = n1 - 1 - warmup := by
    rw [runTraining_trace_length]; omega
  exact ⟨hlen, by rw [runTraining_trace_bias, hlen]⟩

/-- **C1, witness.** The amended count at the scenario's numbers
(`warmup = 2`, `n1 = 10`): 7 recorded rows, all with first component 1. -/
theorem trace_count_after_training_witness :
    2 < 10
      ∧ ((runTraining (0 : Matrix (Fin 10) (Fin 10) ℝ)
            (0 : Matrix (Fin 10) (Fin 1) ℝ) 1 2
            (List.replicate 10 fun _ => (0.5 : ℝ)) 10 fun _ => 0).trace.length
          = 10 - 1 - 2
        ∧ (runTraining (0 : Matrix (Fin 10) (Fin 10) ℝ)
            (0 : Matrix (Fin 10) (Fin 1) ℝ) 1 2
            (List.replicate 10 fun _ => (0.5 : ℝ)) 10 fun _ => 0).trace.map
              (fun v => v 0)
          = List.replicate (10 - 1 - 2) (1 : ℝ)) :=
  ⟨by norm_num,
    trace_count_after_training (0 : Matrix (Fin 10) (Fin 10) ℝ)
      (0 : Matrix (Fin 10) (Fin 1) ℝ) 1 2 10
      (List.replicate 10 fun _ => (0.5 : ℝ)) (fun _ => 0) (by norm_num)⟩

/-- **C5.** Every internal-state update, in the teacher-forced training
evolution and in the autonomous test step alike, computes
`x_new = (1 - α) • x_prev + α • tanh(W_in · u + W · x_prev)` — with no bias
term inside the pre-activation — before the driver's separate bias write at
index 0; and the leak rate defaults to `0.5`. -/
theorem leaky_state_update_formula [NeZero dx] [NeZero dy]
    (W : Matrix (Fin dx) (Fin dx) ℝ) (Win : Matrix (Fin dx) (Fin dy) ℝ)
    (Wout : Matrix (Fin dy) (Fin dx) ℝ) (leak : ℝ) (x : Fin dx → ℝ)
    (u : Fin dy → ℝ) (train : List (Fin dy → ℝ)) (x₀ : Fin dx → ℝ)
    (u₀ : Fin dy → ℝ) (k : ℕ) (s : TestState dx dy) :
    leakyUpdate W Win leak x u
        = (1 - leak) • x
          + leak • (fun j => Real.tanh (Win.mulVec u j + W.mulVec x j))
      ∧ (stateEvol W Win leak train x₀ u₀ (k + 1)).1
        = Function.update
            (leakyUpdate W Win leak (stateEvol W Win leak train x₀ u₀ k).1
              (stateEvol W Win leak train x₀ u₀ k).2) 0 1
      ∧ (testStep W Win Wout leak s).x
        = Function.update (leakyUpdate W Win leak s.x s.u) 0 1
      ∧ defaultLeak = 0.5 := by
  refine ⟨rfl, ?_, rfl, rfl⟩
  simp [stateEvol, biasedStep]

/-- **C6.** After every state-update step, in the training and in the testing
phase, the first component of the internal state is exactly 1; the states
recorded into the trace are post-bias (all their first components are 1); and
the test-phase output is computed from the post-bias state. -/
theorem bias_unit_invariant [NeZero dx] [NeZero dy]
    (W : Matrix (Fin dx) (Fin dx) ℝ) (Win : Matrix (Fin dx) (Fin dy) ℝ)
    (Wout : Matrix (Fin dy) (Fin dx) ℝ) (leak : ℝ) (warmup n1 : ℕ)
    (train : List (Fin dy → ℝ)) (x₀ x : Fin dx → ℝ) (u : Fin dy → ℝ)
    (s : TestState dx dy) :
    biasedStep W Win leak x u 0 = 1
      ∧ (runTraining W Win leak warmup train n1 x₀).trace.map (fun v => v 0)
        = List.replicate
            (runTraining W Win leak warmup train n1 x₀).trace.length (1 : ℝ)
      ∧ (testStep W Win Wout leak s).x 0 = 1
      ∧ (testStep W Win Wout leak s).u
        = Wout.mulVec ((testStep W Win Wout leak s).x) :=
  ⟨biasedStep_apply_zero W Win leak x u,
    runTraining_trace_bias W Win leak warmup n1 train x₀,
    biasedStep_apply_zero W Win leak s.x s.u, rfl⟩

/-- **C10.** Each recorded state is an immutable snapshot: the trace equals,
entry for entry, the internal state of the reference evolution exactly as it
stood right after its recording step (the bias write at index 0 happens
before the append, and each step produces a fresh vector). -/
theorem recorded_states_are_snapshots [NeZero dx]
    (W : Matrix (Fin dx) (Fin dx) ℝ) (Win : Matrix (Fin dx) (Fin dy) ℝ)
    (leak : ℝ) (warmup n1 : ℕ) (train : List (Fin dy → ℝ))
    (x₀ : Fin dx → ℝ) :
    (runTraining W Win leak warmup train n1 x₀).trace
        = ((List.range (n1 - 1)).filter fun k => warmup ≤ k).map
            (fun k =>
              (stateEvol W Win leak train x₀ (train.getD 0 fun _ => 0)
                (k + 1)).1)
      ∧ ∀ k,
          (stateEvol W Win leak train x₀ (train.getD 0 fun _ => 0) (k + 1)).1
            = biasedStep W Win leak
                (stateEvol W Win leak train x₀ (train.getD 0 fun _ => 0) k).1
                (stateEvol W Win leak train x₀ (train.getD 0 fun _ => 0) k).2 :=
  ⟨runTraining_trace W Win leak warmup train n1 x₀, fun k => by
    simp [stateEvol]⟩

/-- Scaling a matrix scales each eigenvalue by the same factor. -/
theorem isEigenvalue_smul {n : ℕ} (M : Matrix (Fin n) (Fin n) ℂ) (c μ : ℂ)
    (h : IsEigenvalue M μ) : IsEigenvalue (c • M) (c * μ) := by
  obtain ⟨v, hv, hMv⟩ := h
  exact ⟨v, hv, by rw [Matrix.smul_mulVec_assoc, hMv, smul_smul]⟩

/-- Conversely, every eigenvalue of a nonzero multiple `c • M` is `c` times
an eigenvalue of `M`. -/
theorem isEigenvalue_of_smul {n : ℕ} (M : Matrix (Fin n) (Fin n) ℂ) (c ν : ℂ)
    (hc : c ≠ 0) (h : IsEigenvalue (c • M) ν) : IsEigenvalue M (c⁻¹ * ν) := by
  obtain ⟨v, hv, hMv⟩ := h
  rw [Matrix.smul_mulVec_assoc] at hMv
  refine ⟨v, hv, ?_⟩
  calc M.mulVec v = (c⁻¹ * c) • M.mulVec v := by
        rw [inv_mul_cancel₀ hc, one_smul]
    _ = c⁻¹ • (c • M.mulVec v) := by rw [smul_smul]
    _ = c⁻¹ • (ν • v) := by rw [hMv]
    _ = (c⁻¹ * ν) • v := by rw [smul_smul]

/-- Complexification of the rescaled recurrent matrix. -/
theorem scaledW_map {n : ℕ} (r m : ℝ) (W : Matrix (Fin n) (Fin n) ℝ) :
    (scaledW r m W).map Complex.ofReal
      = (((r / m : ℝ) : ℂ)) • W.map Complex.ofReal := by
  ext i j
  simp [scaledW, Matrix.map_apply, Matrix.smul_apply, smul_eq_mul]

/-- **C2.** For every spectral-radius target `r > 0` (default 1.25), if `m`
is the largest eigenvalue magnitude of the freshly drawn recurrent matrix `W`
and `m ≠ 0`, then after the rescaling of source line 88 the largest
eigenvalue magnitude of the scaled matrix is exactly `r` (exact equality in
the real-arithmetic model, hence within any floating-point tolerance). -/
theorem spectral_radius_after_scaling {n : ℕ} (W : Matrix (Fin n) (Fin n) ℝ)
    (r m : ℝ) (hr : 0 < r) (hm : IsMaxAbsEigenvalue (W.map Complex.ofReal) m)
    (hm0 : m ≠ 0) :
    IsMaxAbsEigenvalue ((scaledW r m W).map Complex.ofReal) r
      ∧ defaultRadius = 1.25 := by
  have hmpos : 0 < m := by
    obtain ⟨⟨μ0, _, habs⟩, _⟩ := hm
    exact lt_of_le_of_ne (habs ▸ Complex.abs.nonneg μ0) (Ne.symm hm0)
  have hc : (((r / m : ℝ) : ℂ)) ≠ 0 :=
    Complex.ofReal_ne_zero.mpr (div_ne_zero (ne_of_gt hr) hm0)
  have habsc : Complex.abs (((r / m : ℝ) : ℂ)) = r / m := by
    rw [Complex.abs_ofReal, abs_of_pos (div_pos hr hmpos)]
  rw [scaledW_map]
  refine ⟨⟨?_, ?_⟩, rfl⟩
  · obtain ⟨⟨μ0, hμ0, habs⟩, _⟩ := hm
    refine ⟨((r / m : ℝ) : ℂ) * μ0,
      isEigenvalue_smul (W.map Complex.ofReal) _ μ0 hμ0, ?_⟩
    rw [map_mul, habsc, habs, div_mul_cancel₀ r hm0]
  · intro ν hν
    have h2 := hm.2 _ (isEigenvalue_of_smul (W.map Complex.ofReal) _ ν hc hν)
    have hν' : ν = ((r / m : ℝ) : ℂ) * ((((r / m : ℝ) : ℂ))⁻¹ * ν) :=
      (mul_inv_cancel_left₀ hc ν).symm
    calc Complex.abs ν
        = Complex.abs (((r / m : ℝ) : ℂ))
            * Complex.abs ((((r / m : ℝ) : ℂ))⁻¹ * ν) := by
          rw [← map_mul, ← hν']
      _ ≤ (r / m) * m := by
          rw [habsc]
          exact mul_le_mul_of_nonneg_left h2 (le_of_lt (div_pos hr hmpos))
      _ = r := div_mul_cancel₀ r hm0

/-- The 1×1 matrix `W1 = [[2]]` has 2 as its unique eigenvalue, so its
largest eigenvalue magnitude is 2. -/
theorem W1_maxAbsEigenvalue : IsMaxAbsEigenvalue (W1.map Complex.ofReal) 2 := by
  have happ : ∀ (v : Fin 1 → ℂ) (i : Fin 1),
      (W1.map Complex.ofReal).mulVec v i = 2 * v 0 := by
    intro v i
    simp [W1, Matrix.mulVec, Matrix.dotProduct, Fin.sum_univ_one,
      Matrix.map_apply, Matrix.of_apply]
  constructor
  · refine ⟨2, ⟨fun _ => 1, ?_, ?_⟩, by simp⟩
    · intro h0
      have := congrFun h0 0
      simp at this
    · funext i
      rw [happ]
      simp
  · rintro μ ⟨v, hv, hMv⟩
    have h0 : v 0 ≠ 0 := by
      intro h
      apply hv
      funext i
      fin_cases i
      exact h
    have hcomp : (2 : ℂ) * v 0 = μ * v 0 := by
      have h := congrFun hMv 0
      rw [happ] at h
      simpa [Pi.smul_apply, smul_eq_mul] using h
    have hμ : μ = 2 := (mul_right_cancel₀ h0 hcomp).symm
    simp [hμ]

/-- **C2, witness.** At `W = [[2]]`, `m = 2`, `r = 1.25`: after scaling the
largest eigenvalue magnitude is exactly 1.25. -/
theorem spectral_radius_after_scaling_witness :
    (0 : ℝ) < 1.25 ∧ IsMaxAbsEigenvalue (W1.map Complex.ofReal) 2
      ∧ (2 : ℝ) ≠ 0
      ∧ (IsMaxAbsEigenvalue ((scaledW 1.25 2 W1).map Complex.ofReal) 1.25
          ∧ defaultRadius = 1.25) :=
  ⟨by norm_num, W1_maxAbsEigenvalue, by norm_num,
    spectral_radius_after_scaling W1 1.25 2 (by norm_num) W1_maxAbsEigenvalue
      (by norm_num)⟩

/-- The nilpotent matrix `degW = [[0,1],[0,0]]` has all eigenvalues zero:
its largest eigenvalue magnitude is 0. -/
theorem degW_maxAbsEigenvalue :
    IsMaxAbsEigenvalue (degW.map Complex.ofReal) 0 := by
  have happ : ∀ (v : Fin 2 → ℂ) (i : Fin 2),
      (degW.map Complex.ofReal).mulVec v i
        = if i = 0 then v 1 else 0 := by
    intro v i
    fin_cases i <;>
      simp [degW, Matrix.mulVec, Matrix.dotProduct, Fin.sum_univ_two,
        Matrix.map_apply, Matrix.of_apply]
  constructor
  · refine ⟨0, ⟨fun i => if i = 0 then 1 else 0, ?_, ?_⟩, by simp⟩
    · intro h0
      have := congrFun h0 0
      simp at this
    · funext i
      rw [happ]
      fin_cases i <;> simp
  · rintro μ ⟨v, hv, hMv⟩
    have h1 : v 1 = μ * v 0 := by
      have h := congrFun hMv 0
      rw [happ] at h
      simpa [Pi.smul_apply, smul_eq_mul] using h
    have h2 : μ * v 1 = 0 := by
      have h := congrFun hMv 1
      rw [happ] at h
      simpa [Pi.smul_apply, smul_eq_mul] using h.symm
    by_cases hμ : μ = 0
    · simp [hμ]
    · exfalso
      apply hv
      have hv1 : v 1 = 0 := by
        rcases mul_eq_zero.mp h2 with h | h
        · exact absurd h hμ
        · exact h
      have hv0 : v 0 = 0 := by
        have h3 : μ * v 0 = 0 := by rw [← h1]; exact hv1
        rcases mul_eq_zero.mp h3 with h | h
        · exact absurd h hμ
        · exact h
      funext i
      fin_cases i
      · exact hv0
      · exact hv1

/-- **C9, counterexample.** The rescaling of source line 88 is a total
operation with no error path (numpy float division by zero yields `inf` with
only a runtime warning): at the degenerate matrix `[[0,1],[0,0]]`, whose
eigenvalues are all zero, initialization does not fail with a
`DegenerateMatrix` error — the scaling completes and silently returns the
zero matrix (the exact-arithmetic counterpart of numpy's silent `inf`/`NaN`
entries). -/
theorem degenerate_matrix_counterexample :
    IsMaxAbsEigenvalue (degW.map Complex.ofReal) 0
      ∧ scaledW 1.25 0 degW = 0 :=
  ⟨degW_maxAbsEigenvalue, by simp [scaledW]⟩

/-- **C9 (amended).** If the drawn recurrent matrix is degenerate (largest
eigenvalue magnitude zero), initialization does not fail: the rescaling
division is performed anyway and `W` is silently corrupted — non-finite
entries in floating point; in the exact-real model the scale factor `r / 0`
collapses `W` to the zero matrix — and no `DegenerateMatrix` error exists in
the code. -/
theorem degenerate_matrix_no_error {n : ℕ} (W : Matrix (Fin n) (Fin n) ℝ)
    (r : ℝ) (_hdeg : IsMaxAbsEigenvalue (W.map Complex.ofReal) 0) :
    scaledW r 0 W = 0 := by
  simp [scaledW]

/-- **C9, witness.** The amended behaviour at the concrete degenerate matrix
`[[0,1],[0,0]]`. -/
theorem degenerate_matrix_no_error_witness :
    IsMaxAbsEigenvalue (degW.map Complex.ofReal) 0
      ∧ scaledW (1.25 : ℝ) 0 degW = 0 :=
  ⟨degW_maxAbsEigenvalue,
    degenerate_matrix_no_error degW 1.25 degW_maxAbsEigenvalue⟩

/-- The list-sum Gram matrix of the columns of `X` is the matrix product
`X * Xᵀ`. -/
theorem gram_colsList {n T : ℕ} (X : Matrix (Fin n) (Fin T) ℝ) :
    gram (colsList X) = X * X.transpose := by
  ext a b
  rw [Matrix.mul_apply, Fin.sum_univ_def]
  simp only [gram, colsList, Matrix.of_apply, List.map_map,
    Matrix.transpose_apply]
  rfl

/-- The list-sum cross-covariance of the columns of `Y` against the columns
of `X` is the matrix product `Y * Xᵀ`. -/
theorem crossCov_colsList {n p T : ℕ} (Y : Matrix (Fin p) (Fin T) ℝ)
    (X : Matrix (Fin n) (Fin T) ℝ) :
    crossCov (colsList Y) (colsList X) = Y * X.transpose := by
  ext a b
  rw [Matrix.mul_apply, Fin.sum_univ_def]
  simp only [crossCov, colsList, Matrix.of_apply, List.zip_map',
    List.map_map, Matrix.transpose_apply]
  rfl

/-- **C3.** On any nonempty pair of recorded traces with matching sample
counts — presented as the columns of `X` (states, time along columns) and
`Y` (targets) — the readout fitter returns exactly
`W_out = (Y Xᵀ) (X Xᵀ + ε I)⁻¹` with `ε = 1e-8` and `I` the
`dim_x × dim_x` identity. -/
theorem update_ridge_formula (T : ℕ) (hT : 0 < T)
    (X : Matrix (Fin dx) (Fin T) ℝ) (Y : Matrix (Fin dy) (Fin T) ℝ) :
    update (colsList X) (colsList Y)
      = Except.ok ((Y * X.transpose) *
          (X * X.transpose
            + (1e-8 : ℝ) • (1 : Matrix (Fin dx) (Fin dx) ℝ))⁻¹) := by
  rw [update, if_pos]
  · rw [gram_colsList, crossCov_colsList]
  · refine ⟨?_, ?_⟩ <;> simp [colsList]
    omega

/-- **C3, witness.** The fitter applied to a single-sample trace pair built
from 1×1 identity matrices. -/
theorem update_ridge_formula_witness :
    0 < 1
      ∧ update (colsList (1 : Matrix (Fin 1) (Fin 1) ℝ))
          (colsList (1 : Matrix (Fin 1) (Fin 1) ℝ))
        = Except.ok
            (((1 : Matrix (Fin 1) (Fin 1) ℝ)
                * (1 : Matrix (Fin 1) (Fin 1) ℝ).transpose) *
              ((1 : Matrix (Fin 1) (Fin 1) ℝ)
                  * (1 : Matrix (Fin 1) (Fin 1) ℝ).transpose
                + (1e-8 : ℝ) • (1 : Matrix (Fin 1) (Fin 1) ℝ))⁻¹) :=
  ⟨by norm_num, update_ridge_formula 1 (by norm_num) 1 1⟩

/-- A nonempty training slice: `train[0]` does not raise. -/
theorem take_not_isEmpty (data : List (Fin dy → ℝ)) (n1 : ℕ) (h1 : 1 ≤ n1)
    (hd : 1 ≤ data.length) : (data.take n1).isEmpty = false := by
  rw [List.isEmpty_eq_false, Ne, List.take_eq_nil_iff]
  push_neg
  refine ⟨by omega, ?_⟩
  intro h
  rw [h] at hd
  simp at hd

/-- **C8.** If `n1 ≤ warmup` (with `1 ≤ n1 ≤ data.length`, so the call gets
past `train[0]`), the recording trace is empty, the fit step fails — numpy
raises at the matrix product over the empty traces, the
`InsufficientTrainingData` condition of the spec — no regression is
performed, and `weight_out` is left exactly as it was before the call. -/
theorem insufficient_training_data [NeZero dx] [NeZero dy]
    (inst : ReservoirInst dx dy) (data : List (Fin dy → ℝ)) (n1 n2 : ℕ)
    (h1 : 1 ≤ n1) (hw : n1 ≤ inst.warmup) (hd : n1 ≤ data.length) :
    (runTraining inst.weight inst.weight_in inst.leak inst.warmup
        (data.take n1) n1 inst.internal).trace = []
      ∧ (training_testing inst data n1 n2).1
        = Except.error "ValueError: matmul shapes not aligned"
      ∧ (training_testing inst data n1 n2).2.weight_out = inst.weight_out := by
  have htr : (runTraining inst.weight inst.weight_in inst.leak inst.warmup
      (data.take n1) n1 inst.internal).trace = [] := by
    have hlen := runTraining_trace_length inst.weight inst.weight_in inst.leak
      inst.warmup (data.take n1) n1 inst.internal
    have hlen0 : (runTraining inst.weight inst.weight_in inst.leak inst.warmup
        (data.take n1) n1 inst.internal).trace.length = 0 := by
      rw [hlen]; omega
    exact List.length_eq_zero.mp hlen0
  have hne : (data.take n1).isEmpty = false :=
    take_not_isEmpty data n1 h1 (le_trans h1 hd)
  have hupd : update
      (runTraining inst.weight inst.weight_in inst.leak inst.warmup
        (data.take n1) n1 inst.internal).trace
      (runTraining inst.weight inst.weight_in inst.leak inst.warmup
        (data.take n1) n1 inst.internal).targets
      = Except.error "ValueError: matmul shapes not aligned" := by
    rw [htr]
    simp [update]
  refine ⟨htr, ?_, ?_⟩ <;>
    simp only [training_testing, hne, Bool.false_eq_true, if_false, hupd]

/-- **C7, counterexample.** With `n1 = n2 = 2` (and enough data, zero warmup,
so the fit succeeds) the call does not return empty sequences: the test slice
`data[n1:n1]` is empty and reading `test[0]` raises `IndexError`. -/
theorem empty_test_phase_counterexample :
    (training_testing
        ({ weight_in := 0, weight := 0, weight_out := 0, leak := 1 / 2,
           warmup := 0, internal := fun _ => 0 } : ReservoirInst 1 1)
        (List.replicate 2 fun _ => (0.5 : ℝ)) 2 2).1
      = Except.error "IndexError: list index out of range" := by
  have hne : (((List.replicate 2 fun _ => (0.5 : ℝ)) :
      List (Fin 1 → ℝ)).take 2).isEmpty = false :=
    take_not_isEmpty _ 2 (by norm_num) (by simp)
  have hlen : (runTraining (0 : Matrix (Fin 1) (Fin 1) ℝ) 0 (1 / 2) 0
      (((List.replicate 2 fun _ => (0.5 : ℝ)) : List (Fin 1 → ℝ)).take 2) 2
      (fun _ => 0)).trace.length = 1 := by
    rw [runTraining_trace_length]
    simp
  have htlen : (runTraining (0 : Matrix (Fin 1) (Fin 1) ℝ) 0 (1 / 2) 0
      (((List.replicate 2 fun _ => (0.5 : ℝ)) : List (Fin 1 → ℝ)).take 2) 2
      (fun _ => 0)).targets.length = 1 := by
    rw [runTraining_targets_length, hlen]
  have hupd : update
      (runTraining (0 : Matrix (Fin 1) (Fin 1) ℝ) 0 (1 / 2) 0
        (((List.replicate 2 fun _ => (0.5 : ℝ)) : List (Fin 1 → ℝ)).take 2) 2
        (fun _ => 0)).trace
      (runTraining (0 : Matrix (Fin 1) (Fin 1) ℝ) 0 (1 / 2) 0
        (((List.replicate 2 fun _ => (0.5 : ℝ)) : List (Fin 1 → ℝ)).take 2) 2
        (fun _ => 0)).targets
      = Except.ok
          (crossCov
              (runTraining (0 : Matrix (Fin 1) (Fin 1) ℝ) 0 (1 / 2) 0
                (((List.replicate 2 fun _ => (0.5 : ℝ)) :
                  List (Fin 1 → ℝ)).take 2) 2 (fun _ => 0)).targets
              (runTraining (0 : Matrix (Fin 1) (Fin 1) ℝ) 0 (1 / 2) 0
                (((List.replicate 2 fun _ => (0.5 : ℝ)) :
                  List (Fin 1 → ℝ)).take 2) 2 (fun _ => 0)).trace *
            (gram
                (runTraining (0 : Matrix (Fin 1) (Fin 1) ℝ) 0 (1 / 2) 0
                  (((List.replicate 2 fun _ => (0.5 : ℝ)) :
                    List (Fin 1 → ℝ)).take 2) 2 (fun _ => 0)).trace
              + (1e-8 : ℝ) • (1 : Matrix (Fin 1) (Fin 1) ℝ))⁻¹) := by
    rw [update, if_pos]
    exact ⟨by rw [hlen]; omega, by rw [htlen, hlen]⟩
  simp only [training_testing, hne, Bool.false_eq_true, if_false, hupd]
  simp

/-- **C7 (amended).** For every call `train_and_test(n1, n2)` with `n2 = n1`
(and `1 ≤ n1 ≤ data.length`, so the call gets past `train[0]`), the test
slice is empty and the call raises — `IndexError` at `test[0]` when the fit
succeeded, or the fit error when the trace was empty — instead of returning
two empty sequences. -/
theorem empty_test_phase_raises [NeZero dx] [NeZero dy]
    (inst : ReservoirInst dx dy) (data : List (Fin dy → ℝ)) (n1 : ℕ)
    (h1 : 1 ≤ n1) (hd : n1 ≤ data.length) :
    isOkE (training_testing inst data n1 n1).1 = false := by
  have hne : (data.take n1).isEmpty = false :=
    take_not_isEmpty data n1 h1 (le_trans h1 hd)
  have htest : ((data.drop n1).take (n1 - n1)).isEmpty = true := by
    simp [Nat.sub_self]
  simp only [training_testing, hne, Bool.false_eq_true, if_false]
  cases hupd : update
      (runTraining inst.weight inst.weight_in inst.leak inst.warmup
        (data.take n1) n1 inst.internal).trace
      (runTraining inst.weight inst.weight_in inst.leak inst.warmup
        (data.take n1) n1 inst.internal).targets with
  | error e => simp [isOkE]
  | ok M => simp [htest, isOkE]

/-- **C7, witness.** The amended statement at `n1 = n2 = 1` on a singleton
data series. -/
theorem empty_test_phase_raises_witness :
    1 ≤ 1 ∧ 1 ≤ ([fun _ => (0.5 : ℝ)] : List (Fin 1 → ℝ)).length
      ∧ isOkE (training_testing
          ({ weight_in := 0, weight := 0, weight_out := 0, leak := 1 / 2,
             warmup := 0, internal := fun _ => 0 } : ReservoirInst 1 1)
          ([fun _ => (0.5 : ℝ)] : List (Fin 1 → ℝ)) 1 1).1 = false :=
  ⟨le_refl 1, by simp,
    empty_test_phase_raises
      ({ weight_in := 0, weight := 0, weight_out := 0, leak := 1 / 2,
         warmup := 0, internal := fun _ => 0 } : ReservoirInst 1 1)
      ([fun _ => (0.5 : ℝ)] : List (Fin 1 → ℝ)) 1 (le_refl 1) (by simp)⟩

/-- **C8, witness.** The spec's scenario `warmup = 100`, `n1 = 50`: the trace
is empty, the fit raises, and `weight_out` is untouched. -/
theorem insufficient_training_data_witness :
    1 ≤ 50 ∧ 50 ≤ 100 ∧ 50 ≤ ((List.replicate 50 fun _ => (0.5 : ℝ)) :
        List (Fin 1 → ℝ)).length
      ∧ ((runTraining
            (({ weight_in := 0, weight := 0, weight_out := 0, leak := 1 / 2,
                warmup := 100, internal := fun _ => 0 } :
              ReservoirInst 1 1)).weight
            (({ weight_in := 0, weight := 0, weight_out := 0, leak := 1 / 2,
                warmup := 100, internal := fun _ => 0 } :
              ReservoirInst 1 1)).weight_in (1 / 2) 100
            (((List.replicate 50 fun _ => (0.5 : ℝ)) :
              List (Fin 1 → ℝ)).take 50) 50 (fun _ => 0)).trace = []
        ∧ (training_testing
            ({ weight_in := 0, weight := 0, weight_out := 0, leak := 1 / 2,
               warmup := 100, internal := fun _ => 0 } : ReservoirInst 1 1)
            ((List.replicate 50 fun _ => (0.5 : ℝ)) : List (Fin 1 → ℝ))
            50 60).1 = Except.error "ValueError: matmul shapes not aligned"
        ∧ (training_testing
            ({ weight_in := 0, weight := 0, weight_out := 0, leak := 1 / 2,
               warmup := 100, internal := fun _ => 0 } : ReservoirInst 1 1)
            ((List.replicate 50 fun _ => (0.5 : ℝ)) : List (Fin 1 → ℝ))
            50 60).2.weight_out
          = ({ weight_in := 0, weight := 0, weight_out := 0, leak := 1 / 2,
               warmup := 100, internal := fun _ => 0 } :
              ReservoirInst 1 1).weight_out) :=
  ⟨by norm_num, by norm_num, by simp,
    insufficient_training_data
      ({ weight_in := 0, weight := 0, weight_out := 0, leak := 1 / 2,
         warmup := 100, internal := fun _ => 0 } : ReservoirInst 1 1)
      ((List.replicate 50 fun _ => (0.5 : ℝ)) : List (Fin 1 → ℝ)) 50 60
      (by norm_num) (by norm_num) (by simp)⟩

/-- Reading a list by index over its whole range is the same as mapping over
the list. -/
theorem map_getD_range {α β : Type} (l : List α) (d : α) (f : α → β) :
    (List.range l.length).map (fun k => f (l.getD k d)) = l.map f := by
  induction l with
  | nil => simp
  | cons a t ih =>
      rw [List.length_cons, List.range_succ_eq_map, List.map_cons,
        List.map_map, List.map_cons, List.getD_cons_zero]
      congr 1

/-- **C4.** With `n1 < n2` and a successful training phase
(`warmup + 2 ≤ n1`, `n2 ≤ data.length`), the call returns `Except.ok` with:
the true signal `test[i][0]` for `i < n2-n1`; the predictions, where entry
`k` is the output component of the closed-loop step iterated `k+1` times from
the loop entry state — whose input is `test[0]`, the first test-series
ground-truth value (`= data[n1]`); both sequences of length `n2 - n1` and
aligned index by index; and every test step's stored input equals the output
the network just produced (`u = W_out · x`, closed loop, no teacher
forcing). -/
theorem autonomous_test_phase [NeZero dx] [NeZero dy]
    (inst : ReservoirInst dx dy) (data : List (Fin dy → ℝ)) (n1 n2 : ℕ)
    (hw : inst.warmup + 2 ≤ n1) (h12 : n1 < n2) (hd : n2 ≤ data.length) :
    (training_testing inst data n1 n2).1
        = Except.ok
            (((data.drop n1).take (n2 - n1)).map (fun v => v 0),
              (List.range (n2 - n1)).map fun k =>
                ((testStep inst.weight inst.weight_in (fitW inst data n1)
                      inst.leak)^[k + 1]
                    { x := (runTraining inst.weight inst.weight_in inst.leak
                        inst.warmup (data.take n1) n1 inst.internal).x,
                      u := ((data.drop n1).take (n2 - n1)).getD 0
                        fun _ => 0 }).u 0)
      ∧ (((data.drop n1).take (n2 - n1)).map (fun v => v 0)).length = n2 - n1
      ∧ ((List.range (n2 - n1)).map fun k =>
            ((testStep inst.weight inst.weight_in (fitW inst data n1)
                inst.leak)^[k + 1]
              { x := (runTraining inst.weight inst.weight_in inst.leak
                  inst.warmup (data.take n1) n1 inst.internal).x,
                u := ((data.drop n1).take (n2 - n1)).getD 0
                  fun _ => 0 }).u 0).length = n2 - n1
      ∧ ((data.drop n1).take (n2 - n1)).getD 0 (fun _ => 0)
          = data.getD n1 (fun _ => 0)
      ∧ ∀ s : TestState dx dy,
          (testStep inst.weight inst.weight_in (fitW inst data n1)
              inst.leak s).u
            = (fitW inst data n1).mulVec
                ((testStep inst.weight inst.weight_in (fitW inst data n1)
                  inst.leak s).x) := by
  have h1 : 1 ≤ n1 := by omega
  have hne : (data.take n1).isEmpty = false :=
    take_not_isEmpty data n1 h1 (by omega)
  have hlen := runTraining_trace_length inst.weight inst.weight_in inst.leak
    inst.warmup (data.take n1) n1 inst.internal
  have hlenpos : (runTraining inst.weight inst.weight_in inst.leak
      inst.warmup (data.take n1) n1 inst.internal).trace.length ≠ 0 := by
    rw [hlen]
    omega
  have htlen := runTraining_targets_length inst.weight inst.weight_in
    inst.leak inst.warmup (data.take n1) n1 inst.internal
  have hupd : update
      (runTraining inst.weight inst.weight_in inst.leak inst.warmup
        (data.take n1) n1 inst.internal).trace
      (runTraining inst.weight inst.weight_in inst.leak inst.warmup
        (data.take n1) n1 inst.internal).targets
      = Except.ok (fitW inst data n1) := by
    rw [update, if_pos ⟨hlenpos, htlen⟩]
    rfl
  have htest_len : ((data.drop n1).take (n2 - n1)).length = n2 - n1 := by
    rw [List.length_take, List.length_drop]
    omega
  have htest_ne : ((data.drop n1).take (n2 - n1)).isEmpty = false := by
    rw [List.isEmpty_eq_false]
    intro h
    rw [h] at htest_len
    simp at htest_len
    omega
  have hsig : ∀ l : List (Fin dy → ℝ), l.length = n2 - n1 →
      (List.range (n2 - n1)).map (fun k => (l.getD (0 + k) fun _ => 0) 0)
        = l.map (fun v => v 0) := by
    intro l hl
    simp only [Nat.zero_add]
    rw [← hl]
    exact map_getD_range l (fun _ => 0) (fun v => v 0)
  refine ⟨?_, by rw [List.length_map, htest_len],
    by rw [List.length_map, List.length_range], ?_, fun s => rfl⟩
  · simp only [training_testing, hne, Bool.false_eq_true, if_false, hupd,
      htest_ne]
    rw [testLoop_signal, testLoop_result, hsig _ htest_len]
  · rw [List.getD_eq_getElem?_getD, List.getElem?_take,
      if_pos (by omega : 0 < n2 - n1), List.getElem?_drop, Nat.add_zero,
      ← List.getD_eq_getElem?_getD]

/-- **C4, witness.** The autonomous phase at the concrete run `inst0`,
`data0`, `n1 = 2`, `n2 = 3`. -/
theorem autonomous_test_phase_witness :
    inst0.warmup + 2 ≤ 2 ∧ 2 < 3 ∧ 3 ≤ data0.length
      ∧ ((training_testing inst0 data0 2 3).1
          = Except.ok
              (((data0.drop 2).take (3 - 2)).map (fun v => v 0),
                (List.range (3 - 2)).map fun k =>
                  ((testStep inst0.weight inst0.weight_in (fitW inst0 data0 2)
                        inst0.leak)^[k + 1]
                      { x := (runTraining inst0.weight inst0.weight_in
                          inst0.leak inst0.warmup (data0.take 2) 2
                          inst0.internal).x,
                        u := ((data0.drop 2).take (3 - 2)).getD 0
                          fun _ => 0 }).u 0)
        ∧ (((data0.drop 2).take (3 - 2)).map (fun v => v 0)).length = 3 - 2
        ∧ ((List.range (3 - 2)).map fun k =>
              ((testStep inst0.weight inst0.weight_in (fitW inst0 data0 2)
                  inst0.leak)^[k + 1]
                { x := (runTraining inst0.weight inst0.weight_in inst0.leak
                    inst0.warmup (data0.take 2) 2 inst0.internal).x,
                  u := ((data0.drop 2).take (3 - 2)).getD 0
                    fun _ => 0 }).u 0).length = 3 - 2
        ∧ ((data0.drop 2).take (3 - 2)).getD 0 (fun _ => 0)
            = data0.getD 2 (fun _ => 0)
        ∧ ∀ s : TestState 1 1,
            (testStep inst0.weight inst0.weight_in (fitW inst0 data0 2)
                inst0.leak s).u
              = (fitW inst0 data0 2).mulVec
                  ((testStep inst0.weight inst0.weight_in
                    (fitW inst0 data0 2) inst0.leak s).x)) :=
  ⟨by simp [inst0], by norm_num, by simp [data0],
    autonomous_test_phase inst0 data0 2 3 (by simp [inst0]) (by norm_num)
      (by simp [data0])⟩

/-- **C5, witness.** The state-update formula instantiated at the concrete
1-dimensional instance `inst0`. -/
theorem leaky_state_update_formula_witness :
    leakyUpdate inst0.weight inst0.weight_in inst0.leak inst0.internal
        (fun _ => 0)
        = (1 - inst0.leak) • inst0.internal
          + inst0.leak • (fun j => Real.tanh
              (inst0.weight_in.mulVec (fun _ => 0) j
                + inst0.weight.mulVec inst0.internal j))
      ∧ (stateEvol inst0.weight inst0.weight_in inst0.leak data0
            inst0.internal (fun _ => 0) (0 + 1)).1
        = Function.update
            (leakyUpdate inst0.weight inst0.weight_in inst0.leak
              (stateEvol inst0.weight inst0.weight_in inst0.leak data0
                inst0.internal (fun _ => 0) 0).1
              (stateEvol inst0.weight inst0.weight_in inst0.leak data0
                inst0.internal (fun _ => 0) 0).2) 0 1
      ∧ (testStep inst0.weight inst0.weight_in inst0.weight_out inst0.leak
            { x := inst0.internal, u := fun _ => 0 }).x
        = Function.update
            (leakyUpdate inst0.weight inst0.weight_in inst0.leak
              inst0.internal (fun _ => 0)) 0 1
      ∧ defaultLeak = 0.5 :=
  leaky_state_update_formula inst0.weight inst0.weight_in inst0.weight_out
    inst0.leak inst0.internal (fun _ => 0) data0 inst0.internal (fun _ => 0)
    0 { x := inst0.internal, u := fun _ => 0 }

/-- **C6, witness.** The bias invariant instantiated at the concrete
1-dimensional instance `inst0` with `warmup = 0`, `n1 = 2`. -/
theorem bias_unit_invariant_witness :
    biasedStep inst0.weight inst0.weight_in inst0.leak inst0.internal
        (fun _ => 0) 0 = 1
      ∧ (runTraining inst0.weight inst0.weight_in inst0.leak 0 data0 2
            inst0.internal).trace.map (fun v => v 0)
        = List.replicate
            (runTraining inst0.weight inst0.weight_in inst0.leak 0 data0 2
              inst0.internal).trace.length (1 : ℝ)
      ∧ (testStep inst0.weight inst0.weight_in inst0.weight_out inst0.leak
            { x := inst0.internal, u := fun _ => 0 }).x 0 = 1
      ∧ (testStep inst0.weight inst0.weight_in inst0.weight_out inst0.leak
            { x := inst0.internal, u := fun _ => 0 }).u
        = inst0.weight_out.mulVec
            ((testStep inst0.weight inst0.weight_in inst0.weight_out
              inst0.leak { x := inst0.internal, u := fun _ => 0 }).x) :=
  bias_unit_invariant inst0.weight inst0.weight_in inst0.weight_out
    inst0.leak 0 2 data0 inst0.internal inst0.internal (fun _ => 0)
    { x := inst0.internal, u := fun _ => 0 }

/-- **C10, witness.** The snapshot characterization instantiated at the
concrete 1-dimensional instance `inst0` with `warmup = 0`, `n1 = 2`. -/
theorem recorded_states_are_snapshots_witness :
    (runTraining inst0.weight inst0.weight_in inst0.leak 0 data0 2
          inst0.internal).trace
        = ((List.range (2 - 1)).filter fun k => 0 ≤ k).map
            (fun k =>
              (stateEvol inst0.weight inst0.weight_in inst0.leak data0
                inst0.internal (data0.getD 0 fun _ => 0) (k + 1)).1)
      ∧ ∀ k,
          (stateEvol inst0.weight inst0.weight_in inst0.leak data0
              inst0.internal (data0.getD 0 fun _ => 0) (k + 1)).1
            = biasedStep inst0.weight inst0.weight_in inst0.leak
                (stateEvol inst0.weight inst0.weight_in inst0.leak data0
                  inst0.internal (data0.getD 0 fun _ => 0) k).1
                (stateEvol inst0.weight inst0.weight_in inst0.leak data0
                  inst0.internal (data0.getD 0 fun _ => 0) k).2 :=
  recorded_states_are_snapshots inst0.weight inst0.weight_in inst0.leak 0 2
    data0 inst0.internal

end ReservoirESN

end
